import Mathlib

/-!
Shallow embedding of `creme/optim/schedulers.py` (learning-rate schedulers)
and verification of its specification.

Python floats are modelled as real numbers (`ℝ`); the iteration counter `t`
is a Python `int`, modelled as `ℤ`.  Python's `%` on integers with a positive
divisor agrees with `Int.emod` (the `%` of Lean's `Int`): both return the
unique representative in `[0, c)`.  Constructor-time failures (`assert`
statements raising on invalid parameters, `math.sqrt` of a negative number,
and float division by zero) are modelled with `Except`: the spec's error
taxonomy maps both numeric-domain failures and zero-division failures of
`Optimal.__init__` to `DomainError`, and the `assert` failures of
`Cyclic.__init__` to `InvalidParameter`.  The `isinstance(c, int)` check of
`Cyclic.__init__` is modelled by taking the candidate cycle length as a
rational number `c : ℚ` and requiring `c.den = 1`.
-/

namespace Creme

/-- Error taxonomy of the spec: `InvalidParameter` for constructor argument
validation, `DomainError` for undefined real-valued computations
(square root of a negative number, division by zero). -/
inductive SchedErr where
  | invalidParameter
  | domainError
deriving DecidableEq

/-- `Constant` scheduler: holds one field `learning_rate`. -/
structure Constant where
  learning_rate : ℝ

/-- `Constant.get`: `return self.learning_rate`. -/
def Constant.get (s : Constant) (_t : ℤ) : ℝ := s.learning_rate

/-- `Cyclic` scheduler state after successful construction:
`lr1`, `lr2` floats and the integer cycle length `c`. -/
structure Cyclic where
  lr1 : ℝ
  lr2 : ℝ
  c : ℤ

/-- `Cyclic.__init__`: `assert lr1 >= lr2` then
`assert c > 0 and isinstance(c, int)`; a failed assert is an
`InvalidParameter` failure.  The candidate `c` is a Python number,
modelled as `c : ℚ`; it is an `int` iff `c.den = 1`. -/
noncomputable def Cyclic.initE (lr1 lr2 : ℝ) (c : ℚ) : Except SchedErr Cyclic :=
  if lr1 ≥ lr2 then
    if 0 < c ∧ c.den = 1 then
      .ok { lr1 := lr1, lr2 := lr2, c := c.num }
    else .error .invalidParameter
  else .error .invalidParameter

/-- `Cyclic.get`:
`ti = ((t-1) % self.c + 1) / self.c; return (1 - ti) * self.lr1 + ti * self.lr2`.
Python's `%` with the positive divisor `c` is `Int.emod`, written `%`. -/
noncomputable def Cyclic.get (s : Cyclic) (t : ℤ) : ℝ :=
  let ti : ℝ := (((t - 1) % s.c + 1 : ℤ) : ℝ) / (s.c : ℝ)
  (1 - ti) * s.lr1 + ti * s.lr2

/-- `InverseScaling` scheduler: fields `learning_rate` and `power`. -/
structure InverseScaling where
  learning_rate : ℝ
  power : ℝ

/-- `InverseScaling.get`: `return self.learning_rate / pow(t + 1, self.power)`,
with `pow` on reals modelled by `Real.rpow`. -/
noncomputable def InverseScaling.get (s : InverseScaling) (t : ℤ) : ℝ :=
  s.learning_rate / ((t : ℝ) + 1) ^ s.power

/-- `Optimal` scheduler state after construction: `alpha` and the derived
constant `t0` (the `loss` reference is only used during construction). -/
structure Optimal where
  alpha : ℝ
  t0 : ℝ

/-- `Optimal.__init__` on the success path:
`typw = sqrt(1 / sqrt(alpha))`,
`initial_eta0 = typw / max(1.0, loss.gradient(-typw, 1.0))`,
`t0 = 1 / (initial_eta0 * alpha)`.
The external loss capability is its `gradient : ℝ → ℝ → ℝ` function. -/
noncomputable def Optimal.init (gradient : ℝ → ℝ → ℝ) (alpha : ℝ) : Optimal :=
  let typw := Real.sqrt (1 / Real.sqrt alpha)
  let initial_eta0 := typw / max 1 (gradient (-typw) 1)
  { alpha := alpha, t0 := 1 / (initial_eta0 * alpha) }

/-- Checked square root: `math.sqrt` raises a domain error on negative
input; on non-negative input it returns `Real.sqrt`. -/
noncomputable def sqrtE (x : ℝ) : Except SchedErr ℝ :=
  if x < 0 then .error .domainError else .ok (Real.sqrt x)

/-- Checked division: Python float division raises on a zero denominator
(classified as `DomainError` by the spec's taxonomy). -/
noncomputable def divE (a b : ℝ) : Except SchedErr ℝ :=
  if b = 0 then .error .domainError else .ok (a / b)

/-- `Optimal.__init__` with the failure paths made explicit, in source
evaluation order: `math.sqrt(self.alpha)` first, then the reciprocal, the
outer square root, the call to `loss.gradient`, and the two divisions. -/
noncomputable def Optimal.initE (gradient : ℝ → ℝ → ℝ) (alpha : ℝ) :
    Except SchedErr Optimal := do
  let s ← sqrtE alpha
  let r ← divE 1 s
  let typw ← sqrtE r
  let initial_eta0 ← divE typw (max 1 (gradient (-typw) 1))
  let t0 ← divE 1 (initial_eta0 * alpha)
  return { alpha := alpha, t0 := t0 }

/-- `Optimal.get`: `return 1. / (self.alpha * (self.t0 + t))`. -/
noncomputable def Optimal.get (s : Optimal) (t : ℤ) : ℝ :=
  1 / (s.alpha * (s.t0 + (t : ℝ)))

/-! ### Helper lemmas about `Int.emod` and the linear interpolation -/

/-- The mathematical (non-negative-result) remainder is unique: if
`0 ≤ r < c` and `c` divides `a - r` then `a % c = r`. -/
lemma emod_eq_of_dvd_sub {a c r : ℤ} (hr0 : 0 ≤ r) (hrc : r < c)
    (hdvd : c ∣ a - r) : a % c = r := by
  obtain ⟨k, hk⟩ := hdvd
  have ha : a = r + c * k := by linarith
  rw [ha, Int.add_mul_emod_self_left, Int.emod_eq_of_lt hr0 hrc]

lemma emod_neg_one {c : ℤ} (hc : 0 < c) : (-1) % c = c - 1 := by
  rw [show (-1 : ℤ) = c - 1 + c * (-1) by ring, Int.add_mul_emod_self_left,
    Int.emod_eq_of_lt (by omega) (by omega)]

/-- A convex combination `(1 - u) * lr1 + u * lr2` with `u ∈ [0, 1]` and
`lr2 ≤ lr1` stays inside `[lr2, lr1]`. -/
lemma interp_mem_Icc {u lr1 lr2 : ℝ} (h0 : 0 ≤ u) (h1 : u ≤ 1)
    (h : lr2 ≤ lr1) :
    lr2 ≤ (1 - u) * lr1 + u * lr2 ∧ (1 - u) * lr1 + u * lr2 ≤ lr1 := by
  constructor <;> nlinarith

/-- When the iteration lands on the last step of a cycle
(`(t - 1) % c = c - 1`), `Cyclic.get` returns exactly `lr2`. -/
lemma cyclic_get_cycle_end (lr1 lr2 : ℝ) (c t : ℤ) (hc : 0 < c)
    (h : (t - 1) % c = c - 1) : Cyclic.get ⟨lr1, lr2, c⟩ t = lr2 := by
  have hc0 : (c : ℝ) ≠ 0 := Int.cast_ne_zero.2 (by omega)
  simp only [Cyclic.get, h]
  push_cast
  field_simp

/-! ### Claim theorems for the Cyclic scheduler -/

/-- C1: for a validly constructed `Cyclic` scheduler (`0 < c`) and any
integer `t`, `get t` equals `(1 - ti) * lr1 + ti * lr2` where
`ti = (r + 1) / c` and `r` is the mathematical (non-negative) remainder of
`t - 1` modulo `c`, i.e. the unique `r` with `0 ≤ r < c` and `c ∣ t - 1 - r`. -/
theorem cyclic_get_interp_formula (lr1 lr2 : ℝ) (c t r : ℤ)
    (hc : 0 < c) (hr0 : 0 ≤ r) (hrc : r < c) (hdvd : c ∣ t - 1 - r) :
    Cyclic.get ⟨lr1, lr2, c⟩ t
      = (1 - ((r : ℝ) + 1) / (c : ℝ)) * lr1 + (((r : ℝ) + 1) / (c : ℝ)) * lr2 := by
  have h : (t - 1) % c = r := emod_eq_of_dvd_sub hr0 hrc hdvd
  simp only [Cyclic.get, h]
  push_cast
  ring

/-- Witness for C1 at `lr1 = 3`, `lr2 = 1`, `c = 2`, `t = 4`, `r = 1`. -/
theorem cyclic_get_interp_formula_witness :
    (0:ℤ) < 2 ∧ (0:ℤ) ≤ 1 ∧ (1:ℤ) < 2 ∧ ((2:ℤ) ∣ 4 - 1 - 1) ∧
    Cyclic.get ⟨3, 1, 2⟩ 4
      = (1 - ((1:ℤ) + 1 : ℝ) / ((2:ℤ) : ℝ)) * 3 + (((1:ℤ) + 1 : ℝ) / ((2:ℤ) : ℝ)) * 1 :=
  ⟨by decide, by decide, by decide, by decide,
    cyclic_get_interp_formula 3 1 2 4 1 (by decide) (by decide) (by decide) (by decide)⟩

/-- C2 counterexample: for the validly constructed scheduler
`lr1 = 2, lr2 = 0, c = 2` (so `lr1 ≥ lr2` and `0 < c`), `get 1 ≠ lr1`. -/
theorem cyclic_get_one_cex :
    (2:ℝ) ≥ 0 ∧ (0:ℤ) < 2 ∧ Cyclic.get ⟨2, 0, 2⟩ 1 ≠ 2 := by
  refine ⟨by norm_num, by decide, ?_⟩
  have h : ((1:ℤ) - 1) % 2 = 0 := by decide
  simp only [Cyclic.get, h]
  norm_num

/-- C2 amended: for every validly constructed `Cyclic` scheduler,
`get 1 = lr1 - (lr1 - lr2) / c` (one interpolation step below `lr1`;
this equals `lr1` only when `lr1 = lr2`). -/
theorem cyclic_get_one (lr1 lr2 : ℝ) (c : ℤ) (hc : 0 < c) :
    Cyclic.get ⟨lr1, lr2, c⟩ 1 = lr1 - (lr1 - lr2) / (c : ℝ) := by
  have h : ((1:ℤ) - 1) % c = 0 := by simp
  have hc0 : (c : ℝ) ≠ 0 := Int.cast_ne_zero.2 (by omega)
  simp only [Cyclic.get, h]
  push_cast
  field_simp
  ring

/-- Witness for the amended C2 at `lr1 = 2`, `lr2 = 0`, `c = 2`. -/
theorem cyclic_get_one_witness :
    (0:ℤ) < 2 ∧ Cyclic.get ⟨2, 0, 2⟩ 1 = 2 - (2 - 0) / ((2:ℤ) : ℝ) :=
  ⟨by decide, cyclic_get_one 2 0 2 (by decide)⟩

/-- C4: for every validly constructed `Cyclic` scheduler (`lr2 ≤ lr1`,
`0 < c`) and every `t ≥ 1`: `get t ∈ [lr2, lr1]`, `get c = lr2`, and
`get (t + c) = get t` (periodicity). -/
theorem cyclic_get_range_and_period (lr1 lr2 : ℝ) (c t : ℤ)
    (hl : lr2 ≤ lr1) (hc : 0 < c) (ht : 1 ≤ t) :
    (lr2 ≤ Cyclic.get ⟨lr1, lr2, c⟩ t ∧ Cyclic.get ⟨lr1, lr2, c⟩ t ≤ lr1) ∧
    Cyclic.get ⟨lr1, lr2, c⟩ c = lr2 ∧
    Cyclic.get ⟨lr1, lr2, c⟩ t = Cyclic.get ⟨lr1, lr2, c⟩ (t + c) := by
  have hr0 : 0 ≤ (t - 1) % c := Int.emod_nonneg _ (by omega)
  have hrc : (t - 1) % c < c := Int.emod_lt_of_pos _ hc
  have hcR : (0:ℝ) < (c : ℝ) := by exact_mod_cast hc
  refine ⟨?_, ?_, ?_⟩
  · have hu0 : (0:ℝ) ≤ (((t - 1) % c + 1 : ℤ) : ℝ) / (c : ℝ) := by
      apply div_nonneg _ (le_of_lt hcR)
      exact_mod_cast (by omega : (0:ℤ) ≤ (t - 1) % c + 1)
    have hu1 : (((t - 1) % c + 1 : ℤ) : ℝ) / (c : ℝ) ≤ 1 := by
      rw [div_le_one hcR]
      exact_mod_cast (by omega : (t - 1) % c + 1 ≤ c)
    simpa only [Cyclic.get] using interp_mem_Icc hu0 hu1 hl
  · exact cyclic_get_cycle_end lr1 lr2 c c hc
      (Int.emod_eq_of_lt (by omega) (by omega))
  · have hmod : (t + c - 1) % c = (t - 1) % c := by
      rw [show t + c - 1 = t - 1 + c * 1 by ring, Int.add_mul_emod_self_left]
    simp only [Cyclic.get, hmod]

/-- Witness for C4 at `lr1 = 3`, `lr2 = 1`, `c = 2`, `t = 1`. -/
theorem cyclic_get_range_and_period_witness :
    (1:ℝ) ≤ 3 ∧ (0:ℤ) < 2 ∧ (1:ℤ) ≤ 1 ∧
    ((1 ≤ Cyclic.get ⟨3, 1, 2⟩ 1 ∧ Cyclic.get ⟨3, 1, 2⟩ 1 ≤ 3) ∧
      Cyclic.get ⟨3, 1, 2⟩ 2 = 1 ∧
      Cyclic.get ⟨3, 1, 2⟩ 1 = Cyclic.get ⟨3, 1, 2⟩ (1 + 2)) :=
  ⟨by norm_num, by decide, by decide,
    cyclic_get_range_and_period 3 1 2 1 (by norm_num) (by decide) (by decide)⟩

/-- C5 counterexample: for the validly constructed scheduler
`lr1 = 2, lr2 = 0, c = 2`, `get 0 ≠ get 1` (so `t = 0` and `t = 1` do not
map to the same point of the cycle). -/
theorem cyclic_get_zero_cex :
    (2:ℝ) ≥ 0 ∧ (0:ℤ) < 2 ∧ Cyclic.get ⟨2, 0, 2⟩ 0 ≠ Cyclic.get ⟨2, 0, 2⟩ 1 := by
  refine ⟨by norm_num, by decide, ?_⟩
  have h0 : ((0:ℤ) - 1) % 2 = 1 := by decide
  have h1 : ((1:ℤ) - 1) % 2 = 0 := by decide
  simp only [Cyclic.get, h0, h1]
  norm_num

/-- C5 amended: for every validly constructed `Cyclic` scheduler, `t = 0`
maps to the end of a cycle: `get 0 = lr2`, the same value as `get c`. -/
theorem cyclic_get_zero (lr1 lr2 : ℝ) (c : ℤ) (hc : 0 < c) :
    Cyclic.get ⟨lr1, lr2, c⟩ 0 = lr2 ∧
    Cyclic.get ⟨lr1, lr2, c⟩ 0 = Cyclic.get ⟨lr1, lr2, c⟩ c := by
  have h0 : ((0:ℤ) - 1) % c = c - 1 := by
    rw [zero_sub]; exact emod_neg_one hc
  have hend : Cyclic.get ⟨lr1, lr2, c⟩ 0 = lr2 :=
    cyclic_get_cycle_end lr1 lr2 c 0 hc h0
  have hc' : Cyclic.get ⟨lr1, lr2, c⟩ c = lr2 :=
    cyclic_get_cycle_end lr1 lr2 c c hc (Int.emod_eq_of_lt (by omega) (by omega))
  exact ⟨hend, hend.trans hc'.symm⟩

/-- Witness for the amended C5 at `lr1 = 2`, `lr2 = 0`, `c = 2`. -/
theorem cyclic_get_zero_witness :
    (0:ℤ) < 2 ∧
    (Cyclic.get ⟨2, 0, 2⟩ 0 = 0 ∧ Cyclic.get ⟨2, 0, 2⟩ 0 = Cyclic.get ⟨2, 0, 2⟩ 2) :=
  ⟨by decide, cyclic_get_zero 2 0 2 (by decide)⟩

/-- C6: `Cyclic` construction fails with `InvalidParameter` exactly when
`lr1 < lr2` or `c` is not a positive integer, and succeeds otherwise; in
particular it rejects `(lr1, lr2) = (1.0, 2.0)`, rejects `c = 0` and
rejects `c = 2.5`, so a malformed scheduler is never built. -/
theorem cyclic_initE_spec :
    (∀ (lr1 lr2 : ℝ) (c : ℚ),
      (Cyclic.initE lr1 lr2 c = .error .invalidParameter ↔
        lr1 < lr2 ∨ ¬(0 < c ∧ c.den = 1)) ∧
      ((∃ s, Cyclic.initE lr1 lr2 c = .ok s) ↔
        lr2 ≤ lr1 ∧ 0 < c ∧ c.den = 1)) ∧
    Cyclic.initE 1 2 3 = .error .invalidParameter ∧
    Cyclic.initE 1 (1/2) 0 = .error .invalidParameter ∧
    Cyclic.initE 1 (1/2) (5/2) = .error .invalidParameter := by
  refine ⟨fun lr1 lr2 c => ?_, ?_, ?_, ?_⟩
  · unfold Cyclic.initE
    by_cases h1 : lr1 ≥ lr2
    · by_cases h2 : 0 < c ∧ c.den = 1
      · rw [if_pos h1, if_pos h2]
        simp [h1, h2, not_lt.2 h1]
      · rw [if_pos h1, if_neg h2]
        simp [h2]
    · rw [if_neg h1]
      simp [h1, not_le.1 h1, not_le.1 (fun h => h1 h)]
  · unfold Cyclic.initE
    rw [if_neg (by norm_num)]
  · unfold Cyclic.initE
    rw [if_pos (by norm_num), if_neg (by decide)]
  · unfold Cyclic.initE
    rw [if_pos (by norm_num), if_neg ?_]
    rintro ⟨-, hden⟩
    have hnum : (((5:ℚ)/2).num : ℚ) = (5:ℚ)/2 := (Rat.den_eq_one_iff _).mp hden
    have h5 : (2 : ℚ) * (((5:ℚ)/2).num : ℚ) = 5 := by rw [hnum]; norm_num
    have h5' : (2 : ℤ) * ((5:ℚ)/2).num = 5 := by exact_mod_cast h5
    omega

/-! ### Claim theorems for the InverseScaling scheduler -/

/-- C8 counterexample: the scheduler with `learning_rate = 0` and
`power = 1 > 0` is not strictly decreasing: `get 1` is not below `get 0`. -/
theorem inverse_scaling_strict_cex :
    (0:ℝ) < 1 ∧
    ¬ InverseScaling.get ⟨0, 1⟩ 1 < InverseScaling.get ⟨0, 1⟩ 0 := by
  refine ⟨one_pos, ?_⟩
  simp [InverseScaling.get]

/-- C8 amended: for every `InverseScaling` scheduler (any `learning_rate`,
any `power`) and every iteration `u ≥ 0`, `get u` equals
`learning_rate / (u + 1) ^ power`; the sequence is strictly decreasing
(`get t < get s` for `0 ≤ s < t`) whenever `0 < learning_rate` and
`0 < power`; and with `learning_rate = 1`, `power = 0.5`: `get 0 = 1` and
`get 3 = 0.5`. -/
theorem inverse_scaling_get_decreasing (lr p : ℝ) (s t : ℤ)
    (hlr : 0 < lr) (hp : 0 < p) (hs : 0 ≤ s) (hst : s < t) :
    (∀ (lr' p' : ℝ) (u : ℤ), 0 ≤ u →
      InverseScaling.get ⟨lr', p'⟩ u = lr' / ((u:ℝ) + 1) ^ p') ∧
    InverseScaling.get ⟨lr, p⟩ t < InverseScaling.get ⟨lr, p⟩ s ∧
    InverseScaling.get ⟨1, 1/2⟩ 0 = 1 ∧
    InverseScaling.get ⟨1, 1/2⟩ 3 = 1/2 := by
  have hsR : (0:ℝ) ≤ (s:ℝ) := by exact_mod_cast hs
  have hs1 : (0:ℝ) < (s:ℝ) + 1 := by linarith
  have hstR : (s:ℝ) + 1 < (t:ℝ) + 1 := by
    have : (s:ℝ) < (t:ℝ) := by exact_mod_cast hst
    linarith
  have hpow : ((s:ℝ) + 1) ^ p < ((t:ℝ) + 1) ^ p :=
    Real.rpow_lt_rpow hs1.le hstR hp
  have hpow0 : (0:ℝ) < ((s:ℝ) + 1) ^ p := Real.rpow_pos_of_pos hs1 p
  have hsqrt4 : Real.sqrt 4 = 2 := by
    rw [show (4:ℝ) = 2 ^ 2 by norm_num, Real.sqrt_sq (by norm_num : (0:ℝ) ≤ 2)]
  refine ⟨fun lr' p' u _ => rfl, ?_, ?_, ?_⟩
  · exact div_lt_div_of_pos_left hlr hpow0 hpow
  · simp [InverseScaling.get, Real.one_rpow]
  · show (1:ℝ) / (((3:ℤ):ℝ) + 1) ^ ((1:ℝ)/2) = 1/2
    rw [show (((3:ℤ):ℝ) + 1) = 4 by norm_num, ← Real.sqrt_eq_rpow, hsqrt4]

/-- Witness for the amended C8 at `lr = 1`, `p = 1/2`, `s = 0`, `t = 1`;
the formula conjunct is instantiated at the scheduler
`learning_rate = 2`, `power = -1` (a scheduler outside the
strictly-decreasing regime) at `u = 5`. -/
theorem inverse_scaling_get_decreasing_witness :
    (0:ℝ) < 1 ∧ (0:ℝ) < 1/2 ∧ (0:ℤ) ≤ 0 ∧ (0:ℤ) < 1 ∧ (0:ℤ) ≤ 5 ∧
    (InverseScaling.get ⟨2, -1⟩ 5 = 2 / (((5:ℤ):ℝ) + 1) ^ (-1:ℝ) ∧
      InverseScaling.get ⟨1, 1/2⟩ 1 < InverseScaling.get ⟨1, 1/2⟩ 0 ∧
      InverseScaling.get ⟨1, 1/2⟩ 0 = 1 ∧
      InverseScaling.get ⟨1, 1/2⟩ 3 = 1/2) := by
  have h := inverse_scaling_get_decreasing 1 (1/2) 0 1
    (by norm_num) (by norm_num) (by decide) (by decide)
  exact ⟨by norm_num, by norm_num, by decide, by decide, by decide,
    h.1 2 (-1) 5 (by decide), h.2.1, h.2.2.1, h.2.2.2⟩

/-- C9: an `InverseScaling` scheduler with `power = 0` returns, for every
`t ≥ 0`, exactly the value of a `Constant` scheduler with the same
`learning_rate`. -/
theorem inverse_scaling_power_zero_eq_constant (lr : ℝ) (t : ℤ) (ht : 0 ≤ t) :
    InverseScaling.get ⟨lr, 0⟩ t = Constant.get ⟨lr⟩ t := by
  simp [InverseScaling.get, Constant.get, Real.rpow_zero]

/-- Witness for C9 at `learning_rate = 5`, `t = 2`. -/
theorem inverse_scaling_power_zero_eq_constant_witness :
    (0:ℤ) ≤ 2 ∧ InverseScaling.get ⟨5, 0⟩ 2 = Constant.get ⟨5⟩ 2 :=
  ⟨by decide, inverse_scaling_power_zero_eq_constant 5 2 (by decide)⟩

/-! ### Claim theorems for the Optimal scheduler -/

lemma except_error_bind {α β : Type} (e : SchedErr) (f : α → Except SchedErr β) :
    (Except.error e >>= f) = Except.error e := rfl

lemma except_ok_bind {α β : Type} (a : α) (f : α → Except SchedErr β) :
    (Except.ok a >>= f) = f a := rfl

lemma sqrtE_of_nonneg {x : ℝ} (h : 0 ≤ x) : sqrtE x = .ok (Real.sqrt x) := by
  unfold sqrtE
  rw [if_neg (not_lt.2 h)]

lemma divE_of_ne {a b : ℝ} (h : b ≠ 0) : divE a b = .ok (a / b) := by
  unfold divE
  rw [if_neg h]

/-- C3: `Optimal.get t` always returns `1 / (alpha * (t0 + t))` with the
constant `t0 = 1 / (initial_eta0 * alpha)` derived at construction, where
`initial_eta0 = typw / max 1 (gradient (-typw) 1)` and
`typw = sqrt (1 / sqrt alpha)`; in particular for a loss whose gradient is
constantly `1` and `alpha = 1e-4`, `t0 = 1000` and `get 0 = 10`. -/
theorem optimal_init_get_formula :
    (∀ (g : ℝ → ℝ → ℝ) (alpha : ℝ) (t : ℤ),
      (Optimal.init g alpha).alpha = alpha ∧
      (Optimal.init g alpha).t0 =
        1 / (Real.sqrt (1 / Real.sqrt alpha) /
          max 1 (g (-Real.sqrt (1 / Real.sqrt alpha)) 1) * alpha) ∧
      (Optimal.init g alpha).get t =
        1 / (alpha * ((Optimal.init g alpha).t0 + (t:ℝ)))) ∧
    (Optimal.init (fun _ _ => 1) (1/10000)).t0 = 1000 ∧
    (Optimal.init (fun _ _ => 1) (1/10000)).get 0 = 10 := by
  have h1 : Real.sqrt (1/10000 : ℝ) = 1/100 := by
    rw [show (1/10000:ℝ) = (1/100) ^ 2 by norm_num,
      Real.sqrt_sq (by norm_num : (0:ℝ) ≤ 1/100)]
  have h3 : Real.sqrt (100:ℝ) = 10 := by
    rw [show (100:ℝ) = 10 ^ 2 by norm_num,
      Real.sqrt_sq (by norm_num : (0:ℝ) ≤ 10)]
  have ht0 : (Optimal.init (fun _ _ => 1) (1/10000)).t0 = 1000 := by
    simp only [Optimal.init]
    rw [h1, show (1:ℝ)/(1/100) = 100 by norm_num, h3]
    norm_num
  refine ⟨fun g alpha t => ⟨rfl, rfl, rfl⟩, ht0, ?_⟩
  show 1 / ((Optimal.init (fun _ _ => (1:ℝ)) (1/10000)).alpha *
      ((Optimal.init (fun _ _ => (1:ℝ)) (1/10000)).t0 + ((0:ℤ):ℝ))) = 10
  rw [ht0, show (Optimal.init (fun _ _ => (1:ℝ)) (1/10000)).alpha = 1/10000 from rfl]
  norm_num

/-- C7: `Optimal` construction fails with a `DomainError` whenever
`alpha ≤ 0`, for every loss capability (the failure happens while computing
`sqrt(1 / sqrt(alpha))`, before the loss gradient influences the outcome):
`math.sqrt` rejects a negative `alpha`, and `alpha = 0` makes the inner
reciprocal a division by zero. -/
theorem optimal_initE_domain_error (g : ℝ → ℝ → ℝ) (alpha : ℝ)
    (h : alpha ≤ 0) : Optimal.initE g alpha = .error .domainError := by
  rcases h.lt_or_eq with hlt | heq
  · have hs : sqrtE alpha = .error .domainError := by
      unfold sqrtE
      rw [if_pos hlt]
    simp only [Optimal.initE]
    rw [hs, except_error_bind]
  · subst heq
    have hs : sqrtE (0:ℝ) = .ok 0 := by
      rw [sqrtE_of_nonneg le_rfl, Real.sqrt_zero]
    have hd : divE (1:ℝ) 0 = .error .domainError := by
      unfold divE
      rw [if_pos rfl]
    simp only [Optimal.initE]
    rw [hs, except_ok_bind, hd, except_error_bind]

/-- Witness for C7 at `alpha = 0` with the constant-37 gradient. -/
theorem optimal_initE_domain_error_witness :
    (0:ℝ) ≤ 0 ∧ Optimal.initE (fun _ _ => 37) 0 = .error .domainError :=
  ⟨le_rfl, optimal_initE_domain_error (fun _ _ => 37) 0 le_rfl⟩

/-- C10: for `0 < alpha` construction succeeds whatever value the loss
gradient returns; the clamp `max 1 _` forces
`0 < initial_eta0 ≤ typw`, hence `0 < t0`, and for every `t ≥ 0` the
denominator `alpha * (t0 + t)` is strictly positive, so `get t` never
divides by zero and returns a strictly positive rate. -/
theorem optimal_get_pos (g : ℝ → ℝ → ℝ) (alpha : ℝ) (t : ℤ)
    (halpha : 0 < alpha) (ht : 0 ≤ t) :
    Optimal.initE g alpha = .ok (Optimal.init g alpha) ∧
    0 < Real.sqrt (1 / Real.sqrt alpha) /
        max 1 (g (-Real.sqrt (1 / Real.sqrt alpha)) 1) ∧
    Real.sqrt (1 / Real.sqrt alpha) /
        max 1 (g (-Real.sqrt (1 / Real.sqrt alpha)) 1)
      ≤ Real.sqrt (1 / Real.sqrt alpha) ∧
    0 < (Optimal.init g alpha).t0 ∧
    0 < alpha * ((Optimal.init g alpha).t0 + (t:ℝ)) ∧
    0 < (Optimal.init g alpha).get t := by
  have hsq : 0 < Real.sqrt alpha := Real.sqrt_pos.2 halpha
  have hr : (0:ℝ) < 1 / Real.sqrt alpha := by positivity
  have htypw : 0 < Real.sqrt (1 / Real.sqrt alpha) := Real.sqrt_pos.2 hr
  have hmax1 : (1:ℝ) ≤ max 1 (g (-Real.sqrt (1 / Real.sqrt alpha)) 1) :=
    le_max_left _ _
  have hmax0 : (0:ℝ) < max 1 (g (-Real.sqrt (1 / Real.sqrt alpha)) 1) :=
    lt_of_lt_of_le one_pos hmax1
  have heta : 0 < Real.sqrt (1 / Real.sqrt alpha) /
      max 1 (g (-Real.sqrt (1 / Real.sqrt alpha)) 1) := div_pos htypw hmax0
  have hetale : Real.sqrt (1 / Real.sqrt alpha) /
      max 1 (g (-Real.sqrt (1 / Real.sqrt alpha)) 1)
        ≤ Real.sqrt (1 / Real.sqrt alpha) := div_le_self htypw.le hmax1
  have hprod : 0 < Real.sqrt (1 / Real.sqrt alpha) /
      max 1 (g (-Real.sqrt (1 / Real.sqrt alpha)) 1) * alpha :=
    mul_pos heta halpha
  have ht0 : (Optimal.init g alpha).t0 =
      1 / (Real.sqrt (1 / Real.sqrt alpha) /
        max 1 (g (-Real.sqrt (1 / Real.sqrt alpha)) 1) * alpha) := rfl
  have ht0pos : 0 < (Optimal.init g alpha).t0 := by
    rw [ht0]
    positivity
  have htR : (0:ℝ) ≤ (t:ℝ) := by exact_mod_cast ht
  have hden : 0 < alpha * ((Optimal.init g alpha).t0 + (t:ℝ)) :=
    mul_pos halpha (by linarith)
  have hinit : Optimal.initE g alpha = .ok (Optimal.init g alpha) := by
    simp only [Optimal.initE]
    rw [sqrtE_of_nonneg halpha.le, except_ok_bind,
      divE_of_ne (ne_of_gt hsq), except_ok_bind,
      sqrtE_of_nonneg hr.le, except_ok_bind,
      divE_of_ne (ne_of_gt hmax0), except_ok_bind,
      divE_of_ne (ne_of_gt hprod), except_ok_bind]
    rfl
  refine ⟨hinit, heta, hetale, ht0pos, hden, ?_⟩
  show 0 < 1 / ((Optimal.init g alpha).alpha *
    ((Optimal.init g alpha).t0 + ((t:ℤ):ℝ)))
  rw [show (Optimal.init g alpha).alpha = alpha from rfl]
  positivity

/-- Witness for C10 at `alpha = 1`, `t = 0`, with a gradient returning `0`
(so the clamp is what keeps the denominator positive). -/
theorem optimal_get_pos_witness :
    (0:ℝ) < 1 ∧ (0:ℤ) ≤ 0 ∧
    (Optimal.initE (fun _ _ => 0) 1 = .ok (Optimal.init (fun _ _ => 0) 1) ∧
      0 < Real.sqrt (1 / Real.sqrt 1) /
          max 1 ((fun _ _ => (0:ℝ)) (-Real.sqrt (1 / Real.sqrt 1)) 1) ∧
      Real.sqrt (1 / Real.sqrt 1) /
          max 1 ((fun _ _ => (0:ℝ)) (-Real.sqrt (1 / Real.sqrt 1)) 1)
        ≤ Real.sqrt (1 / Real.sqrt 1) ∧
      0 < (Optimal.init (fun _ _ => 0) 1).t0 ∧
      0 < 1 * ((Optimal.init (fun _ _ => 0) 1).t0 + ((0:ℤ):ℝ)) ∧
      0 < (Optimal.init (fun _ _ => 0) 1).get 0) :=
  ⟨one_pos, le_rfl, optimal_get_pos (fun _ _ => 0) 1 0 one_pos le_rfl⟩

end Creme
